import Mathlib

/-
Verification of the HKDF-based PRNG state machine of the shell-encryption
repository (src/prng/hkdf_prng.h and src/prng/single_thread_hkdf_prng.h).

The repository ships only the two class headers; the method bodies live in
.cc files that are not part of src/.  Every definition whose body is not
visible in src/ is therefore modelled from the natural-language spec (its doc
comment starts with "Modelled from the spec:").  Bytes are Nat, machine ints
are Nat (the counters only grow, overflow never matters for the stated
properties), and fallible operations return Except.
-/

namespace rlwe

/-- Error taxonomy of the component (spec section 7): construction-time
invalid key size, carrying the expected length it identifies, and internal
cryptographic failures of the expansion or entropy primitives. -/
inductive PrngError where
  | InvalidArgument (expected : Nat) : PrngError
  | InternalError : PrngError
  deriving DecidableEq

namespace internal

/-- Modelled from the spec: `internal::kHkdfKeyBytesSize`, the fixed seed/key
byte length required by the external HKDF primitive.  Its definition lives in
prng/hkdf_prng_util.h, which is not under src/; both headers reference it in
their `SeedLength`.  The claims depend only on it being one fixed constant. -/
def kHkdfKeyBytesSize : Nat := 32

/-- Modelled from the spec: the fixed batch length, the maximum safe output of
one expansion call — the RFC 5869 bound of 255 output blocks of 32 bytes each,
quoted in both headers as "255 * 32 pseudorandom bytes". -/
def kMaxOutputBytes : Nat := 255 * 32

/-- Modelled from the spec: the deterministic, injective, fixed-width encoding
of the salt counter into the salt bytes fed to the expansion primitive (spec
section 6 allows any such encoding; we fix an 8-byte little-endian one). -/
def HkdfPrngGenerateSalt (counter : Nat) : List Nat :=
  (List.range 8).map (fun i => counter / 256 ^ i % 256)

/-- Modelled from the spec: `internal::HkdfPrngGenerateKey` (called by the
GenerateSeed of both headers) asks the external entropy source for exactly
`kHkdfKeyBytesSize` bytes and propagates its failure. -/
def HkdfPrngGenerateKey (genRandomBytes : Nat → Option (List Nat)) :
    Option (List Nat) :=
  genRandomBytes kHkdfKeyBytesSize

end internal

/-- The external key-derivation expansion primitive (spec section 6):
`Expand(key, salt) -> fixed_length_bytes | Error`, modelled as a function
parameter of the state machine. -/
abbrev Engine := List Nat → List Nat → Option (List Nat)

/-- A well-behaved expansion engine: every batch it produces has the fixed
maximum length (spec section 3, "Replaced wholesale on regeneration"). -/
def Engine.WellFormed (expand : Engine) : Prop :=
  ∀ key salt buf, expand key salt = some buf →
    buf.length = internal.kMaxOutputBytes

/-- The generator state shared by both classes: the immutable key, the read
cursor, the salt counter and the batch buffer — the four private fields of
each header. -/
structure PrngState where
  key_ : List Nat
  position_in_buffer_ : Nat
  salt_counter_ : Nat
  buffer_ : List Nat
  deriving DecidableEq

/-- A call in a Rand8/Rand64 call pattern. -/
inductive Call where
  | r8 : Call
  | r64 : Call
  deriving DecidableEq

/-- The regeneration trigger of each operation: Rand8 regenerates on an
exhausted buffer, Rand64 whenever fewer than 8 bytes remain. -/
def RegenTriggered (s : PrngState) : Call → Prop
  | .r8 => s.position_in_buffer_ = s.buffer_.length
  | .r64 => s.buffer_.length - s.position_in_buffer_ < 8

/-- Modelled from the spec: pack the eight consumed bytes into the 64-bit
result; the first-consumed byte is the least significant (the one fixed byte
order, spec section 4.4). -/
def Assemble64 (bs : List Nat) : Nat :=
  bs.foldr (fun b acc => b + 256 * acc) 0

namespace SingleThreadHkdfPrng

/-- Modelled from the spec: batch regeneration — derive the salt from the
current counter, invoke the expansion engine on (key, salt), and on success
install the fresh batch with cursor 0 and the counter incremented by one.
On engine failure the error is propagated and no state is produced. -/
def Resalt (expand : Engine) (s : PrngState) : Except PrngError PrngState :=
  match expand s.key_ (internal.HkdfPrngGenerateSalt s.salt_counter_) with
  | none => .error .InternalError
  | some buf => .ok ⟨s.key_, 0, s.salt_counter_ + 1, buf⟩

/-- Modelled from the spec: `SingleThreadHkdfPrng::Rand8` (spec section 4.3).
If the buffer is exhausted, regenerate first; on regeneration failure return
the error with the state untouched.  Then read the byte at the cursor and
advance the cursor by one. -/
def Rand8 (expand : Engine) (s : PrngState) :
    Except PrngError Nat × PrngState :=
  if s.position_in_buffer_ = s.buffer_.length then
    match Resalt expand s with
    | .error e => (.error e, s)
    | .ok t =>
        (.ok (t.buffer_.getD t.position_in_buffer_ 0),
         ⟨t.key_, t.position_in_buffer_ + 1, t.salt_counter_, t.buffer_⟩)
  else
    (.ok (s.buffer_.getD s.position_in_buffer_ 0),
     ⟨s.key_, s.position_in_buffer_ + 1, s.salt_counter_, s.buffer_⟩)

/-- Read eight consecutive bytes at the cursor, advance the cursor by eight,
and assemble the 64-bit result. -/
def ReadWord (s : PrngState) : Nat × PrngState :=
  (Assemble64
     ((List.range 8).map (fun i => s.buffer_.getD (s.position_in_buffer_ + i) 0)),
   ⟨s.key_, s.position_in_buffer_ + 8, s.salt_counter_, s.buffer_⟩)

/-- Modelled from the spec: `SingleThreadHkdfPrng::Rand64` (spec section 4.4).
If fewer than 8 bytes remain, regenerate the entire batch, discarding the
unread remainder of the old batch; on regeneration failure return the error
with the state untouched.  Then read 8 consecutive bytes and advance by 8. -/
def Rand64 (expand : Engine) (s : PrngState) :
    Except PrngError Nat × PrngState :=
  if s.buffer_.length - s.position_in_buffer_ < 8 then
    match Resalt expand s with
    | .error e => (.error e, s)
    | .ok t => (.ok (ReadWord t).1, (ReadWord t).2)
  else
    (.ok (ReadWord s).1, (ReadWord s).2)

/-- Modelled from the spec: `SingleThreadHkdfPrng::Create` (spec section 4.1).
Validate the key length against the expected seed length, reporting an
invalid-argument error identifying that length; on success store the key, set
the salt counter to 0 and the cursor to 0, and eagerly produce the initial
batch from the salt derived from counter 0. -/
def Create (expand : Engine) (key : List Nat) : Except PrngError PrngState :=
  if key.length ≠ internal.kHkdfKeyBytesSize then
    .error (.InvalidArgument internal.kHkdfKeyBytesSize)
  else
    Resalt expand ⟨key, 0, 0, []⟩

/-- From src (single_thread_hkdf_prng.h line 86): the expected seed length,
`internal::kHkdfKeyBytesSize`. -/
def SeedLength : Nat := internal.kHkdfKeyBytesSize

/-- From src (single_thread_hkdf_prng.h lines 81-83): seed generation
delegates to `internal::HkdfPrngGenerateKey`, parametrised here by the
external entropy source. -/
def GenerateSeed (genRandomBytes : Nat → Option (List Nat)) :
    Option (List Nat) :=
  internal.HkdfPrngGenerateKey genRandomBytes

/-- One step of the call pattern. -/
def step (expand : Engine) (s : PrngState) : Call → Except PrngError Nat × PrngState
  | .r8 => Rand8 expand s
  | .r64 => Rand64 expand s

/-- Run a whole call pattern, collecting the result of each call and the final
state. -/
def runTrace (expand : Engine) (s : PrngState) :
    List Call → List (Except PrngError Nat) × PrngState
  | [] => ([], s)
  | c :: cs =>
      let r := step expand s c
      let rest := runTrace expand r.2 cs
      (r.1 :: rest.1, rest.2)

end SingleThreadHkdfPrng

namespace HkdfPrng

/-- Modelled from the spec: batch regeneration of the lock-guarded variant,
identical to the regeneration of the single-thread variant (the lock only
serialises calls; spec sections 2 and 4.5). -/
def Resalt (expand : Engine) (s : PrngState) : Except PrngError PrngState :=
  match expand s.key_ (internal.HkdfPrngGenerateSalt s.salt_counter_) with
  | none => .error .InternalError
  | some buf => .ok ⟨s.key_, 0, s.salt_counter_ + 1, buf⟩

/-- Modelled from the spec: `HkdfPrng::Rand8`.  The mutex acquisition around
the body is not representable here; the sequential semantics under the lock is
the same regenerate-then-read step. -/
def Rand8 (expand : Engine) (s : PrngState) :
    Except PrngError Nat × PrngState :=
  if s.position_in_buffer_ = s.buffer_.length then
    match Resalt expand s with
    | .error e => (.error e, s)
    | .ok t =>
        (.ok (t.buffer_.getD t.position_in_buffer_ 0),
         ⟨t.key_, t.position_in_buffer_ + 1, t.salt_counter_, t.buffer_⟩)
  else
    (.ok (s.buffer_.getD s.position_in_buffer_ 0),
     ⟨s.key_, s.position_in_buffer_ + 1, s.salt_counter_, s.buffer_⟩)

/-- Read eight consecutive bytes at the cursor, advance the cursor by eight,
and assemble the 64-bit result (lock-guarded variant). -/
def ReadWord (s : PrngState) : Nat × PrngState :=
  (Assemble64
     ((List.range 8).map (fun i => s.buffer_.getD (s.position_in_buffer_ + i) 0)),
   ⟨s.key_, s.position_in_buffer_ + 8, s.salt_counter_, s.buffer_⟩)

/-- Modelled from the spec: `HkdfPrng::Rand64`, the lock-guarded variant of
the no-straddling wide read. -/
def Rand64 (expand : Engine) (s : PrngState) :
    Except PrngError Nat × PrngState :=
  if s.buffer_.length - s.position_in_buffer_ < 8 then
    match Resalt expand s with
    | .error e => (.error e, s)
    | .ok t => (.ok (ReadWord t).1, (ReadWord t).2)
  else
    (.ok (ReadWord s).1, (ReadWord s).2)

/-- Modelled from the spec: `HkdfPrng::Create`, validating the key length and
eagerly producing the initial batch from salt counter 0. -/
def Create (expand : Engine) (key : List Nat) : Except PrngError PrngState :=
  if key.length ≠ internal.kHkdfKeyBytesSize then
    .error (.InvalidArgument internal.kHkdfKeyBytesSize)
  else
    Resalt expand ⟨key, 0, 0, []⟩

/-- From src (hkdf_prng.h line 86): the expected seed length,
`internal::kHkdfKeyBytesSize`. -/
def SeedLength : Nat := internal.kHkdfKeyBytesSize

/-- From src (hkdf_prng.h lines 81-83): seed generation delegates to
`internal::HkdfPrngGenerateKey`. -/
def GenerateSeed (genRandomBytes : Nat → Option (List Nat)) :
    Option (List Nat) :=
  internal.HkdfPrngGenerateKey genRandomBytes

/-- One step of the call pattern (lock-guarded variant). -/
def step (expand : Engine) (s : PrngState) : Call → Except PrngError Nat × PrngState
  | .r8 => Rand8 expand s
  | .r64 => Rand64 expand s

/-- Run a whole call pattern (lock-guarded variant). -/
def runTrace (expand : Engine) (s : PrngState) :
    List Call → List (Except PrngError Nat) × PrngState
  | [] => ([], s)
  | c :: cs =>
      let r := step expand s c
      let rest := runTrace expand r.2 cs
      (r.1 :: rest.1, rest.2)

end HkdfPrng

/-- A concrete key of the expected length, for evaluating the machine. -/
def key0 : List Nat := List.replicate internal.kHkdfKeyBytesSize 0

/-- A concrete full-length batch, for evaluating the machine. -/
def buf0 : List Nat := List.replicate internal.kMaxOutputBytes 7

/-- A concrete expansion engine that always succeeds with a full-length
batch. -/
def expand0 : Engine := fun _ _ => some buf0

/-- A concrete expansion engine that always fails. -/
def expandFail : Engine := fun _ _ => none

/-- A concrete state with an exhausted buffer: the next read regenerates. -/
def stEmpty : PrngState := ⟨key0, 0, 1, []⟩

/-- A concrete state with nine unread bytes in its batch. -/
def stMid : PrngState := ⟨key0, 0, 1, [1, 2, 3, 4, 5, 6, 7, 8, 9]⟩

/-- The state a successful Create on `key0` with `expand0` produces. -/
def st0 : PrngState := ⟨key0, 0, 1, buf0⟩

/-- A concrete entropy source that answers every request with the requested
number of 3-bytes. -/
def g0 : Nat → Option (List Nat) := fun n => some (List.replicate n 3)

/-- The seed `g0` produces for the seed request of the generator. -/
def seed0 : List Nat := List.replicate internal.kHkdfKeyBytesSize 3

/-- The buffer offsets one step reads, in consumption order: a non-regenerating
read consumes offsets starting at the cursor, a regenerating read consumes
offsets from 0 of the fresh batch, and a failed regeneration reads nothing. -/
def stepReadOffsets (expand : Engine) (s : PrngState) : Call → List Nat
  | .r8 =>
      if s.position_in_buffer_ = s.buffer_.length then
        match expand s.key_ (internal.HkdfPrngGenerateSalt s.salt_counter_) with
        | none => []
        | some _ => [0]
      else [s.position_in_buffer_]
  | .r64 =>
      if s.buffer_.length - s.position_in_buffer_ < 8 then
        match expand s.key_ (internal.HkdfPrngGenerateSalt s.salt_counter_) with
        | none => []
        | some _ => List.range 8
      else (List.range 8).map (fun i => s.position_in_buffer_ + i)

/-- The number of bytes one call consumes: Rand8 one byte, Rand64 eight. -/
def stepWidth : Call → Nat
  | .r8 => 1
  | .r64 => 8

/-- All buffer offsets a call pattern reads, in consumption order. -/
def traceOffsets (expand : Engine) (s : PrngState) : List Call → List Nat
  | [] => []
  | c :: cs =>
      stepReadOffsets expand s c ++
        traceOffsets expand (SingleThreadHkdfPrng.step expand s c).2 cs

/-- The whole call pattern stays inside the current batch generation: no step
triggers a regeneration. -/
def NoRegen (expand : Engine) (s : PrngState) : List Call → Prop
  | [] => True
  | c :: cs => ¬ RegenTriggered s c ∧
      NoRegen expand (SingleThreadHkdfPrng.step expand s c).2 cs

instance instDecidableRegenTriggered (s : PrngState) (c : Call) :
    Decidable (RegenTriggered s c) :=
  match c with
  | .r8 => inferInstanceAs (Decidable (s.position_in_buffer_ = s.buffer_.length))
  | .r64 => inferInstanceAs (Decidable (s.buffer_.length - s.position_in_buffer_ < 8))

instance instDecidableNoRegen (expand : Engine) :
    (s : PrngState) → (cs : List Call) → Decidable (NoRegen expand s cs)
  | _, [] => isTrue trivial
  | s, c :: cs =>
      have : Decidable (NoRegen expand (SingleThreadHkdfPrng.step expand s c).2 cs) :=
        instDecidableNoRegen expand _ cs
      inferInstanceAs (Decidable (_ ∧ _))

/-- Helper: a key of the wrong length makes Create fail with the
invalid-argument error carrying the expected length. -/
theorem create_error_of_bad_length (expand : Engine) (key : List Nat)
    (h : key.length ≠ internal.kHkdfKeyBytesSize) :
    SingleThreadHkdfPrng.Create expand key =
      .error (.InvalidArgument internal.kHkdfKeyBytesSize) := by
  simp [SingleThreadHkdfPrng.Create, h]

/-- Helper: a key of the expected length passes the validation in Create — the
result is never the invalid-argument error. -/
theorem create_not_invalid_of_good_length (expand : Engine) (key : List Nat)
    (h : key.length = internal.kHkdfKeyBytesSize) (e : Nat) :
    SingleThreadHkdfPrng.Create expand key ≠ .error (.InvalidArgument e) := by
  have hni : ¬ key.length ≠ internal.kHkdfKeyBytesSize := by simp [h]
  simp only [SingleThreadHkdfPrng.Create, if_neg hni, SingleThreadHkdfPrng.Resalt]
  cases hx : expand key (internal.HkdfPrngGenerateSalt 0) <;> simp [hx]

/-- Helper: a key of the expected length together with a successful expansion
gives exactly the initial state of spec section 4.1. -/
theorem create_ok_of_good_length (expand : Engine) (key : List Nat)
    (buf : List Nat) (h : key.length = internal.kHkdfKeyBytesSize)
    (hx : expand key (internal.HkdfPrngGenerateSalt 0) = some buf) :
    SingleThreadHkdfPrng.Create expand key = .ok ⟨key, 0, 1, buf⟩ := by
  have hni : ¬ key.length ≠ internal.kHkdfKeyBytesSize := by simp [h]
  simp [SingleThreadHkdfPrng.Create, if_neg hni, SingleThreadHkdfPrng.Resalt, hx]

/-- C2: Rand8 algorithm — on an exhausted buffer (`position == batch_length`)
Rand8 regenerates first: it derives the salt from the current salt counter,
calls the expansion engine on the stored key and that salt, installs the fresh
batch with position 0 and the salt counter incremented by exactly 1; in all
cases it then returns `batch[position]` and increments position by 1. -/
theorem rand8_spec (expand : Engine) (s : PrngState) :
    (∀ buf, s.position_in_buffer_ = s.buffer_.length →
        expand s.key_ (internal.HkdfPrngGenerateSalt s.salt_counter_) = some buf →
        SingleThreadHkdfPrng.Rand8 expand s =
          (.ok (buf.getD 0 0), ⟨s.key_, 1, s.salt_counter_ + 1, buf⟩))
    ∧ (s.position_in_buffer_ ≠ s.buffer_.length →
        SingleThreadHkdfPrng.Rand8 expand s =
          (.ok (s.buffer_.getD s.position_in_buffer_ 0),
           ⟨s.key_, s.position_in_buffer_ + 1, s.salt_counter_, s.buffer_⟩)) := by
  constructor
  · intro buf hpos hexp
    simp [SingleThreadHkdfPrng.Rand8, SingleThreadHkdfPrng.Resalt, hpos, hexp]
  · intro hpos
    simp [SingleThreadHkdfPrng.Rand8, hpos]

/-- Witness for C2: on a concrete exhausted state the regenerating branch
returns the first byte of the fresh batch and bumps the salt counter. -/
theorem rand8_spec_witness :
    SingleThreadHkdfPrng.Rand8 expand0 stEmpty = (.ok 7, ⟨key0, 1, 2, buf0⟩) :=
  (rand8_spec expand0 stEmpty).1 buf0 rfl rfl

/-- C3: Rand64 no-straddling policy — with fewer than 8 bytes remaining,
Rand64 regenerates the entire batch before reading, so the result depends only
on the fresh batch (the unread leftover bytes are discarded, never mixed in);
it then reads 8 consecutive bytes from the cursor, advances the cursor by 8,
and assembles them in the one fixed byte order (first byte least
significant). -/
theorem rand64_no_straddle (expand : Engine) (s : PrngState) :
    (∀ buf, s.buffer_.length - s.position_in_buffer_ < 8 →
        expand s.key_ (internal.HkdfPrngGenerateSalt s.salt_counter_) = some buf →
        SingleThreadHkdfPrng.Rand64 expand s =
          (.ok (Assemble64 ((List.range 8).map (fun i => buf.getD i 0))),
           ⟨s.key_, 8, s.salt_counter_ + 1, buf⟩))
    ∧ (8 ≤ s.buffer_.length - s.position_in_buffer_ →
        SingleThreadHkdfPrng.Rand64 expand s =
          (.ok (Assemble64 ((List.range 8).map
              (fun i => s.buffer_.getD (s.position_in_buffer_ + i) 0))),
           ⟨s.key_, s.position_in_buffer_ + 8, s.salt_counter_, s.buffer_⟩)) := by
  constructor
  · intro buf hlt hexp
    simp [SingleThreadHkdfPrng.Rand64, SingleThreadHkdfPrng.Resalt,
      SingleThreadHkdfPrng.ReadWord, hlt, hexp]
  · intro hge
    have hnlt : ¬ s.buffer_.length - s.position_in_buffer_ < 8 := not_lt.mpr hge
    simp [SingleThreadHkdfPrng.Rand64, SingleThreadHkdfPrng.ReadWord, hnlt]

/-- Witness for C3: on a concrete exhausted state the regenerated batch alone
determines the eight assembled bytes, and the cursor lands on 8. -/
theorem rand64_no_straddle_witness :
    SingleThreadHkdfPrng.Rand64 expand0 stEmpty =
      (.ok (Assemble64 (List.replicate 8 7)), ⟨key0, 8, 2, buf0⟩) :=
  (rand64_no_straddle expand0 stEmpty).1 buf0 (by decide) rfl

/-- C4: key-size validation — Create on a key whose length differs from
SeedLength returns the invalid-argument error identifying the expected length
(and hence no generator state); on a key of exactly SeedLength bytes this
validation passes: the result is never the invalid-argument error. -/
theorem create_key_size_validation (expand : Engine) (key : List Nat) :
    (key.length ≠ internal.kHkdfKeyBytesSize →
        SingleThreadHkdfPrng.Create expand key =
          .error (.InvalidArgument internal.kHkdfKeyBytesSize))
    ∧ (key.length = internal.kHkdfKeyBytesSize →
        ∀ e, SingleThreadHkdfPrng.Create expand key ≠
          .error (.InvalidArgument e)) := by
  constructor
  · intro h
    simp [SingleThreadHkdfPrng.Create, h]
  · intro h e
    have hni : ¬ key.length ≠ internal.kHkdfKeyBytesSize := by simp [h]
    simp only [SingleThreadHkdfPrng.Create, if_neg hni,
      SingleThreadHkdfPrng.Resalt]
    cases hx : expand key (internal.HkdfPrngGenerateSalt 0) <;> simp [hx]

/-- Witness for C4: a three-byte key is rejected with the expected length 32
in the error, and a 32-byte key passes validation for every error payload. -/
theorem create_key_size_validation_witness :
    SingleThreadHkdfPrng.Create expand0 [1, 2, 3] =
      .error (.InvalidArgument 32)
    ∧ SingleThreadHkdfPrng.Create expand0 key0 ≠
        .error (.InvalidArgument 32) :=
  ⟨(create_key_size_validation expand0 [1, 2, 3]).1 (by decide),
   (create_key_size_validation expand0 key0).2 (by decide) 32⟩

/-- C5: error atomicity — whenever the expansion engine fails during a
regeneration triggered by Rand8 or Rand64, the operation returns the
cryptographic-internal error and the returned state is exactly the state
before the call: cursor, salt counter and buffer are all untouched. -/
theorem rand_error_atomicity (expand : Engine) (s : PrngState)
    (hfail : expand s.key_ (internal.HkdfPrngGenerateSalt s.salt_counter_) = none) :
    (s.position_in_buffer_ = s.buffer_.length →
        SingleThreadHkdfPrng.Rand8 expand s = (.error .InternalError, s))
    ∧ (s.buffer_.length - s.position_in_buffer_ < 8 →
        SingleThreadHkdfPrng.Rand64 expand s = (.error .InternalError, s)) := by
  constructor
  · intro hpos
    simp [SingleThreadHkdfPrng.Rand8, SingleThreadHkdfPrng.Resalt, hpos, hfail]
  · intro hlt
    simp [SingleThreadHkdfPrng.Rand64, SingleThreadHkdfPrng.Resalt, hlt, hfail]

/-- Witness for C5: with an always-failing engine on a concrete exhausted
state, both reads report the internal error and hand back the state
unchanged. -/
theorem rand_error_atomicity_witness :
    SingleThreadHkdfPrng.Rand8 expandFail stEmpty =
      (.error .InternalError, stEmpty)
    ∧ SingleThreadHkdfPrng.Rand64 expandFail stEmpty =
      (.error .InternalError, stEmpty) :=
  ⟨(rand_error_atomicity expandFail stEmpty rfl).1 rfl,
   (rand_error_atomicity expandFail stEmpty rfl).2 (by decide)⟩

/-- C1: determinism/replayability — two generator instances independently
constructed by Create from the same accepted key return, under the same
Rand8/Rand64 call pattern, exactly the same sequence of outputs (and reach the
same state): the embedded generator is a function of key and call trace
alone. -/
theorem rand_stream_deterministic (expand : Engine) (key : List Nat)
    (cs : List Call) (s1 s2 : PrngState)
    (h1 : SingleThreadHkdfPrng.Create expand key = .ok s1)
    (h2 : SingleThreadHkdfPrng.Create expand key = .ok s2) :
    SingleThreadHkdfPrng.runTrace expand s1 cs =
      SingleThreadHkdfPrng.runTrace expand s2 cs := by
  rw [h1] at h2
  injection h2 with h
  rw [h]

/-- Witness for C1: a concrete key is accepted and the two runs coincide. -/
theorem rand_stream_deterministic_witness :
    SingleThreadHkdfPrng.runTrace expand0 st0 [Call.r8, Call.r64] =
      SingleThreadHkdfPrng.runTrace expand0 st0 [Call.r8, Call.r64] :=
  rand_stream_deterministic expand0 key0 [Call.r8, Call.r64] st0 st0 rfl rfl

/-- C8: seed round-trip — whenever GenerateSeed succeeds (with an entropy
source honouring its contract of returning the requested number of bytes), the
returned seed has length exactly SeedLength, the validation in Create accepts it
(never the invalid-key-size error), and with a successful expansion Create
fully succeeds on it. -/
theorem generate_seed_round_trip (genRandomBytes : Nat → Option (List Nat))
    (hwf : ∀ n bs, genRandomBytes n = some bs → bs.length = n)
    (seed : List Nat)
    (h : SingleThreadHkdfPrng.GenerateSeed genRandomBytes = some seed) :
    seed.length = SingleThreadHkdfPrng.SeedLength
    ∧ (∀ expand e, SingleThreadHkdfPrng.Create expand seed ≠
        .error (.InvalidArgument e))
    ∧ (∀ expand buf, expand seed (internal.HkdfPrngGenerateSalt 0) = some buf →
        SingleThreadHkdfPrng.Create expand seed = .ok ⟨seed, 0, 1, buf⟩) := by
  have hlen : seed.length = internal.kHkdfKeyBytesSize := hwf _ _ h
  exact ⟨hlen,
    fun expand e => create_not_invalid_of_good_length expand seed hlen e,
    fun expand buf hx => create_ok_of_good_length expand seed buf hlen hx⟩

/-- Witness for C8: the concrete entropy source produces a 32-byte seed that
Create accepts. -/
theorem generate_seed_round_trip_witness :
    seed0.length = SingleThreadHkdfPrng.SeedLength
    ∧ SingleThreadHkdfPrng.Create expand0 seed0 ≠ .error (.InvalidArgument 0)
    ∧ SingleThreadHkdfPrng.Create expand0 seed0 = .ok ⟨seed0, 0, 1, buf0⟩ :=
  ⟨(generate_seed_round_trip g0
      (fun n bs hb => by injection hb with hb; rw [← hb]; simp [List.length_replicate])
      seed0 rfl).1,
   (generate_seed_round_trip g0
      (fun n bs hb => by injection hb with hb; rw [← hb]; simp [List.length_replicate])
      seed0 rfl).2.1 expand0 0,
   (generate_seed_round_trip g0
      (fun n bs hb => by injection hb with hb; rw [← hb]; simp [List.length_replicate])
      seed0 rfl).2.2 expand0 buf0 rfl⟩

/-- Helper: the single steps of the two variants agree. -/
theorem variants_step_eq (expand : Engine) (s : PrngState) (c : Call) :
    HkdfPrng.step expand s c = SingleThreadHkdfPrng.step expand s c := by
  cases c <;> rfl

/-- Helper: the whole traces of the two variants agree. -/
theorem variants_runTrace_eq (expand : Engine) (s : PrngState)
    (cs : List Call) :
    HkdfPrng.runTrace expand s cs = SingleThreadHkdfPrng.runTrace expand s cs := by
  induction cs generalizing s with
  | nil => rfl
  | cons c cs ih =>
      simp only [HkdfPrng.runTrace, SingleThreadHkdfPrng.runTrace]
      rw [variants_step_eq, ih]

/-- C9: variant equivalence — the lock-guarded HkdfPrng and the lock-free
SingleThreadHkdfPrng implement the identical state machine: for every key,
Create agrees, and for every state and sequentially issued Rand8/Rand64 call
pattern, every step and the whole trace (all outputs and the final
position/salt-counter/buffer state) agree; the variants differ only in the
concurrency contract, which has no sequential observable effect. -/
theorem variants_equivalent (expand : Engine) (key : List Nat)
    (s : PrngState) (c : Call) (cs : List Call) :
    HkdfPrng.Create expand key = SingleThreadHkdfPrng.Create expand key
    ∧ HkdfPrng.step expand s c = SingleThreadHkdfPrng.step expand s c
    ∧ HkdfPrng.runTrace expand s cs = SingleThreadHkdfPrng.runTrace expand s cs :=
  ⟨rfl, variants_step_eq expand s c, variants_runTrace_eq expand s cs⟩

/-- C10: cross-variant seed interchangeability — SeedLength of both classes is
the same constant `internal.kHkdfKeyBytesSize`, both GenerateSeed delegate to
the same `internal.HkdfPrngGenerateKey`, and hence a seed generated through
either class passes the Create validation of the other class. -/
theorem seed_interchangeable (g : Nat → Option (List Nat))
    (hwf : ∀ n bs, g n = some bs → bs.length = n) (seed : List Nat) :
    HkdfPrng.SeedLength = SingleThreadHkdfPrng.SeedLength
    ∧ HkdfPrng.GenerateSeed g = SingleThreadHkdfPrng.GenerateSeed g
    ∧ (HkdfPrng.GenerateSeed g = some seed →
        ∀ expand e, SingleThreadHkdfPrng.Create expand seed ≠
          .error (.InvalidArgument e))
    ∧ (SingleThreadHkdfPrng.GenerateSeed g = some seed →
        ∀ expand e, HkdfPrng.Create expand seed ≠
          .error (.InvalidArgument e)) := by
  refine ⟨rfl, rfl, ?_, ?_⟩
  · intro h expand e
    exact create_not_invalid_of_good_length expand seed (hwf _ _ h) e
  · intro h expand e
    have heq : HkdfPrng.Create expand seed =
        SingleThreadHkdfPrng.Create expand seed := rfl
    rw [heq]
    exact create_not_invalid_of_good_length expand seed (hwf _ _ h) e

/-- Witness for C10: with the concrete entropy source, the concrete 32-byte
seed it generates is accepted by Create of both classes. -/
theorem seed_interchangeable_witness :
    HkdfPrng.SeedLength = SingleThreadHkdfPrng.SeedLength
    ∧ HkdfPrng.GenerateSeed g0 = SingleThreadHkdfPrng.GenerateSeed g0
    ∧ SingleThreadHkdfPrng.Create expand0 seed0 ≠ .error (.InvalidArgument 5)
    ∧ HkdfPrng.Create expand0 seed0 ≠ .error (.InvalidArgument 5) :=
  ⟨(seed_interchangeable g0
      (fun n bs hb => by injection hb with hb; rw [← hb]; simp [List.length_replicate])
      seed0).1,
   (seed_interchangeable g0
      (fun n bs hb => by injection hb with hb; rw [← hb]; simp [List.length_replicate])
      seed0).2.1,
   (seed_interchangeable g0
      (fun n bs hb => by injection hb with hb; rw [← hb]; simp [List.length_replicate])
      seed0).2.2.1 rfl expand0 5,
   (seed_interchangeable g0
      (fun n bs hb => by injection hb with hb; rw [← hb]; simp [List.length_replicate])
      seed0).2.2.2 rfl expand0 5⟩

/-- Helper: no single step ever decreases the salt counter. -/
theorem salt_counter_step_le (expand : Engine) (s : PrngState) (c : Call) :
    s.salt_counter_ ≤ (SingleThreadHkdfPrng.step expand s c).2.salt_counter_ := by
  cases c with
  | r8 =>
      simp only [SingleThreadHkdfPrng.step, SingleThreadHkdfPrng.Rand8,
        SingleThreadHkdfPrng.Resalt]
      split
      · cases hx : expand s.key_ (internal.HkdfPrngGenerateSalt s.salt_counter_) <;>
          simp [hx, Nat.le_succ]
      · simp
  | r64 =>
      simp only [SingleThreadHkdfPrng.step, SingleThreadHkdfPrng.Rand64,
        SingleThreadHkdfPrng.Resalt, SingleThreadHkdfPrng.ReadWord]
      split
      · cases hx : expand s.key_ (internal.HkdfPrngGenerateSalt s.salt_counter_) <;>
          simp [hx, Nat.le_succ]
      · simp

/-- Helper: the salt counter is non-decreasing across a whole call pattern. -/
theorem salt_counter_runTrace_le (expand : Engine) :
    ∀ (cs : List Call) (s : PrngState),
      s.salt_counter_ ≤
        (SingleThreadHkdfPrng.runTrace expand s cs).2.salt_counter_ := by
  intro cs
  induction cs with
  | nil => intro s; simp [SingleThreadHkdfPrng.runTrace]
  | cons c cs ih =>
      intro s
      simp only [SingleThreadHkdfPrng.runTrace]
      exact le_trans (salt_counter_step_le expand s c) (ih _)

/-- C6: salt-counter invariant — the counter starts at 0 at construction (the
initial batch of a successful Create is expanded from the salt derived from
counter value 0, leaving the counter at 1, its single construction-time
increment); each Rand8/Rand64 step increments it by exactly 1 on a successful
regeneration — using the salt derived from the counter value current at that
regeneration to produce the new buffer — and leaves it unchanged when no
regeneration is triggered or the regeneration fails; hence it is monotonically
non-decreasing across every call pattern. -/
theorem salt_counter_invariant (expand : Engine) (key : List Nat)
    (s : PrngState) (c : Call) (cs : List Call) :
    (∀ t, SingleThreadHkdfPrng.Create expand key = .ok t →
        t.salt_counter_ = 1 ∧
        expand key (internal.HkdfPrngGenerateSalt 0) = some t.buffer_)
    ∧ (∀ buf, RegenTriggered s c →
        expand s.key_ (internal.HkdfPrngGenerateSalt s.salt_counter_) = some buf →
        (SingleThreadHkdfPrng.step expand s c).2.salt_counter_ = s.salt_counter_ + 1 ∧
        (SingleThreadHkdfPrng.step expand s c).2.buffer_ = buf)
    ∧ (¬ RegenTriggered s c →
        (SingleThreadHkdfPrng.step expand s c).2.salt_counter_ = s.salt_counter_)
    ∧ (expand s.key_ (internal.HkdfPrngGenerateSalt s.salt_counter_) = none →
        (SingleThreadHkdfPrng.step expand s c).2.salt_counter_ = s.salt_counter_)
    ∧ s.salt_counter_ ≤
        (SingleThreadHkdfPrng.runTrace expand s cs).2.salt_counter_ := by
  refine ⟨?_, ?_, ?_, ?_, salt_counter_runTrace_le expand cs s⟩
  · intro t ht
    by_cases hk : key.length ≠ internal.kHkdfKeyBytesSize
    · simp [SingleThreadHkdfPrng.Create, hk] at ht
    · simp only [SingleThreadHkdfPrng.Create, if_neg hk,
        SingleThreadHkdfPrng.Resalt] at ht
      cases hx : expand key (internal.HkdfPrngGenerateSalt 0) with
      | none => simp [hx] at ht
      | some buf =>
          simp only [hx] at ht
          injection ht with ht
          subst ht
          exact ⟨rfl, rfl⟩
  · intro buf hreg hexp
    cases c with
    | r8 =>
        have hp : s.position_in_buffer_ = s.buffer_.length := hreg
        simp [SingleThreadHkdfPrng.step, SingleThreadHkdfPrng.Rand8,
          SingleThreadHkdfPrng.Resalt, hp, hexp]
    | r64 =>
        have hp : s.buffer_.length - s.position_in_buffer_ < 8 := hreg
        simp [SingleThreadHkdfPrng.step, SingleThreadHkdfPrng.Rand64,
          SingleThreadHkdfPrng.Resalt, SingleThreadHkdfPrng.ReadWord, hp, hexp]
  · intro hnreg
    cases c with
    | r8 =>
        have hp : ¬ s.position_in_buffer_ = s.buffer_.length := hnreg
        simp [SingleThreadHkdfPrng.step, SingleThreadHkdfPrng.Rand8, hp]
    | r64 =>
        have hp : ¬ s.buffer_.length - s.position_in_buffer_ < 8 := hnreg
        simp [SingleThreadHkdfPrng.step, SingleThreadHkdfPrng.Rand64,
          SingleThreadHkdfPrng.ReadWord, hp]
  · intro hnone
    cases c with
    | r8 =>
        by_cases hp : s.position_in_buffer_ = s.buffer_.length
        · simp [SingleThreadHkdfPrng.step, SingleThreadHkdfPrng.Rand8,
            SingleThreadHkdfPrng.Resalt, hp, hnone]
        · simp [SingleThreadHkdfPrng.step, SingleThreadHkdfPrng.Rand8, hp]
    | r64 =>
        by_cases hp : s.buffer_.length - s.position_in_buffer_ < 8
        · simp [SingleThreadHkdfPrng.step, SingleThreadHkdfPrng.Rand64,
            SingleThreadHkdfPrng.Resalt, hp, hnone]
        · simp [SingleThreadHkdfPrng.step, SingleThreadHkdfPrng.Rand64,
            SingleThreadHkdfPrng.ReadWord, hp]

/-- Witness for C6: the state a successful Create produces has counter 1 and
the batch expanded from salt counter 0, and a concrete regenerating Rand8 step
increments the counter from 1 to exactly 2 while installing the fresh
batch. -/
theorem salt_counter_invariant_witness :
    (st0.salt_counter_ = 1 ∧
      expand0 key0 (internal.HkdfPrngGenerateSalt 0) = some st0.buffer_)
    ∧ ((SingleThreadHkdfPrng.step expand0 stEmpty Call.r8).2.salt_counter_ = 2 ∧
       (SingleThreadHkdfPrng.step expand0 stEmpty Call.r8).2.buffer_ = buf0) :=
  ⟨(salt_counter_invariant expand0 key0 stEmpty Call.r8 []).1 st0 rfl,
   (salt_counter_invariant expand0 key0 stEmpty Call.r8 []).2.1 buf0 rfl rfl⟩

/-- Helper: with a well-formed engine, one step preserves the cursor bound
`position ≤ batch_length`. -/
theorem position_le_step (expand : Engine) (hwf : Engine.WellFormed expand)
    (s : PrngState) (hs : s.position_in_buffer_ ≤ s.buffer_.length) (c : Call) :
    (SingleThreadHkdfPrng.step expand s c).2.position_in_buffer_ ≤
      (SingleThreadHkdfPrng.step expand s c).2.buffer_.length := by
  cases c with
  | r8 =>
      simp only [SingleThreadHkdfPrng.step, SingleThreadHkdfPrng.Rand8,
        SingleThreadHkdfPrng.Resalt]
      split
      · cases hx : expand s.key_ (internal.HkdfPrngGenerateSalt s.salt_counter_) with
        | none => exact hs
        | some buf =>
            show 0 + 1 ≤ buf.length
            rw [hwf _ _ _ hx]
            decide
      · rename_i hp
        show s.position_in_buffer_ + 1 ≤ s.buffer_.length
        omega
  | r64 =>
      simp only [SingleThreadHkdfPrng.step, SingleThreadHkdfPrng.Rand64,
        SingleThreadHkdfPrng.Resalt, SingleThreadHkdfPrng.ReadWord]
      split
      · cases hx : expand s.key_ (internal.HkdfPrngGenerateSalt s.salt_counter_) with
        | none => exact hs
        | some buf =>
            show 0 + 8 ≤ buf.length
            rw [hwf _ _ _ hx]
            decide
      · rename_i hp
        show s.position_in_buffer_ + 8 ≤ s.buffer_.length
        omega

/-- Helper: with a well-formed engine, the cursor bound holds after every call
pattern. -/
theorem position_le_runTrace (expand : Engine) (hwf : Engine.WellFormed expand) :
    ∀ (cs : List Call) (s : PrngState),
      s.position_in_buffer_ ≤ s.buffer_.length →
      (SingleThreadHkdfPrng.runTrace expand s cs).2.position_in_buffer_ ≤
        (SingleThreadHkdfPrng.runTrace expand s cs).2.buffer_.length := by
  intro cs
  induction cs with
  | nil => intro s hs; simpa [SingleThreadHkdfPrng.runTrace] using hs
  | cons c cs ih =>
      intro s hs
      simp only [SingleThreadHkdfPrng.runTrace]
      exact ih _ (position_le_step expand hwf s hs c)

/-- Helper: a step whose regeneration trigger does not fire only moves the
cursor forward by the width of the step, leaving key, counter and buffer alone. -/
theorem noRegen_step_state (expand : Engine) (s : PrngState) (c : Call)
    (h : ¬ RegenTriggered s c) :
    (SingleThreadHkdfPrng.step expand s c).2 =
      ⟨s.key_, s.position_in_buffer_ + stepWidth c, s.salt_counter_, s.buffer_⟩ := by
  cases c with
  | r8 =>
      have hp : ¬ s.position_in_buffer_ = s.buffer_.length := h
      simp [SingleThreadHkdfPrng.step, SingleThreadHkdfPrng.Rand8, hp, stepWidth]
  | r64 =>
      have hp : ¬ s.buffer_.length - s.position_in_buffer_ < 8 := h
      simp [SingleThreadHkdfPrng.step, SingleThreadHkdfPrng.Rand64,
        SingleThreadHkdfPrng.ReadWord, hp, stepWidth]

/-- Helper: a step whose regeneration trigger does not fire reads exactly the
interval of offsets starting at the cursor. -/
theorem noRegen_stepReadOffsets (expand : Engine) (s : PrngState) (c : Call)
    (h : ¬ RegenTriggered s c) :
    stepReadOffsets expand s c =
      List.range' s.position_in_buffer_ (stepWidth c) := by
  cases c with
  | r8 =>
      have hp : ¬ s.position_in_buffer_ = s.buffer_.length := h
      simp [stepReadOffsets, hp, stepWidth]
  | r64 =>
      have hp : ¬ s.buffer_.length - s.position_in_buffer_ < 8 := h
      simp [stepReadOffsets, hp, stepWidth, List.range'_eq_map_range]

/-- Helper: over a call pattern confined to one batch generation, the cursor
only advances and the offsets read are exactly the interval from the initial
cursor to the final one. -/
theorem traceOffsets_noRegen (expand : Engine) :
    ∀ (cs : List Call) (s : PrngState), NoRegen expand s cs →
      s.position_in_buffer_ ≤
        (SingleThreadHkdfPrng.runTrace expand s cs).2.position_in_buffer_
      ∧ traceOffsets expand s cs =
          List.range' s.position_in_buffer_
            ((SingleThreadHkdfPrng.runTrace expand s cs).2.position_in_buffer_ -
              s.position_in_buffer_) := by
  intro cs
  induction cs with
  | nil =>
      intro s _
      simp [SingleThreadHkdfPrng.runTrace, traceOffsets]
  | cons c cs ih =>
      intro s h
      obtain ⟨hn, hrest⟩ := h
      have hstate := noRegen_step_state expand s c hn
      rw [hstate] at hrest
      obtain ⟨ihle, iheq⟩ :=
        ih ⟨s.key_, s.position_in_buffer_ + stepWidth c, s.salt_counter_,
          s.buffer_⟩ hrest
      have ihle2 : s.position_in_buffer_ + stepWidth c ≤
          (SingleThreadHkdfPrng.runTrace expand
            ⟨s.key_, s.position_in_buffer_ + stepWidth c, s.salt_counter_,
              s.buffer_⟩ cs).2.position_in_buffer_ := by
        simpa using ihle
      constructor
      · simp only [SingleThreadHkdfPrng.runTrace]
        rw [hstate]
        omega
      · simp only [traceOffsets, SingleThreadHkdfPrng.runTrace]
        rw [hstate, noRegen_stepReadOffsets expand s c hn, iheq]
        have harith : (SingleThreadHkdfPrng.runTrace expand
              ⟨s.key_, s.position_in_buffer_ + stepWidth c, s.salt_counter_,
                s.buffer_⟩ cs).2.position_in_buffer_ -
              (s.position_in_buffer_ + stepWidth c) +
            stepWidth c =
            (SingleThreadHkdfPrng.runTrace expand
              ⟨s.key_, s.position_in_buffer_ + stepWidth c, s.salt_counter_,
                s.buffer_⟩ cs).2.position_in_buffer_ -
              s.position_in_buffer_ := by
          omega
        calc List.range' s.position_in_buffer_ (stepWidth c) ++
              List.range'
                (⟨s.key_, s.position_in_buffer_ + stepWidth c, s.salt_counter_,
                  s.buffer_⟩ : PrngState).position_in_buffer_
                ((SingleThreadHkdfPrng.runTrace expand
                    ⟨s.key_, s.position_in_buffer_ + stepWidth c,
                      s.salt_counter_, s.buffer_⟩ cs).2.position_in_buffer_ -
                  (⟨s.key_, s.position_in_buffer_ + stepWidth c,
                    s.salt_counter_, s.buffer_⟩ : PrngState).position_in_buffer_)
            = List.range' s.position_in_buffer_
                ((SingleThreadHkdfPrng.runTrace expand
                    ⟨s.key_, s.position_in_buffer_ + stepWidth c,
                      s.salt_counter_, s.buffer_⟩ cs).2.position_in_buffer_ -
                  (s.position_in_buffer_ + stepWidth c) + stepWidth c) := by
              exact List.range'_append_1 _ _ _
          _ = List.range' s.position_in_buffer_
                ((SingleThreadHkdfPrng.runTrace expand
                    ⟨s.key_, s.position_in_buffer_ + stepWidth c,
                      s.salt_counter_, s.buffer_⟩ cs).2.position_in_buffer_ -
                  s.position_in_buffer_) := by
              rw [harith]

/-- Helper: the always-succeeding concrete engine is well-formed. -/
theorem expand0_wf : Engine.WellFormed expand0 := by
  intro key salt buf h
  injection h with h
  rw [← h]
  simp [buf0, List.length_replicate]

/-- C7: cursor invariant and no byte returned twice — with a well-behaved
expansion engine, after every Rand8/Rand64 call pattern the cursor stays in
the range `[0, batch_length]`; and over any call pattern confined to one batch
generation (no regeneration triggered), the offsets read are exactly the
interval from the initial cursor to the final one, each read exactly once
(no duplicates): offsets below the final cursor have been returned once and
never again, offsets at or above it are unconsumed. -/
theorem cursor_invariant (expand : Engine) (hwf : Engine.WellFormed expand)
    (s : PrngState) (hs : s.position_in_buffer_ ≤ s.buffer_.length)
    (cs : List Call) :
    (SingleThreadHkdfPrng.runTrace expand s cs).2.position_in_buffer_ ≤
      (SingleThreadHkdfPrng.runTrace expand s cs).2.buffer_.length
    ∧ (NoRegen expand s cs →
        traceOffsets expand s cs =
          List.range' s.position_in_buffer_
            ((SingleThreadHkdfPrng.runTrace expand s cs).2.position_in_buffer_ -
              s.position_in_buffer_)
        ∧ (traceOffsets expand s cs).Nodup) := by
  refine ⟨position_le_runTrace expand hwf cs s hs, fun h => ?_⟩
  obtain ⟨-, heq⟩ := traceOffsets_noRegen expand cs s h
  refine ⟨heq, ?_⟩
  rw [heq]
  exact List.nodup_range' _ _

/-- Witness for C7: a concrete no-regeneration pattern of one Rand8 and one
Rand64 on a nine-byte batch reads exactly the offsets 0..8, each once, and
lands the cursor at 9 = batch length. -/
theorem cursor_invariant_witness :
    stMid.position_in_buffer_ ≤ stMid.buffer_.length
    ∧ NoRegen expand0 stMid [Call.r8, Call.r64]
    ∧ (SingleThreadHkdfPrng.runTrace expand0 stMid
          [Call.r8, Call.r64]).2.position_in_buffer_ ≤
        (SingleThreadHkdfPrng.runTrace expand0 stMid
          [Call.r8, Call.r64]).2.buffer_.length
    ∧ traceOffsets expand0 stMid [Call.r8, Call.r64] = List.range' 0 9
    ∧ (traceOffsets expand0 stMid [Call.r8, Call.r64]).Nodup :=
  ⟨by decide, by decide,
   (cursor_invariant expand0 expand0_wf stMid (by decide) [Call.r8, Call.r64]).1,
   ((cursor_invariant expand0 expand0_wf stMid (by decide)
       [Call.r8, Call.r64]).2 (by decide)).1,
   ((cursor_invariant expand0 expand0_wf stMid (by decide)
       [Call.r8, Call.r64]).2 (by decide)).2⟩

end rlwe
